import Mathlib

/-!
Verification development for the scribble repository.

The Python tree store (scribble/obj.py), the object dictionaries
(scribble/objdict.py), the query layer (scribble/scope.py) and the fixup
engine (scribble/fixup.py) are shallowly embedded below.  Python values are
modelled by the inductive `Value`; dictionaries become association lists
(insertion ordered, as Python dicts are), mutation becomes explicit state
passing, and code that can raise returns `Except String`.
-/

namespace Scribble

/-- A Python value as stored in a scribble design tree: a scalar
(None, bool, int, str), a list, or a dict with string keys. -/
inductive Value where
  | null : Value
  | bool (b : Bool) : Value
  | int (n : Int) : Value
  | str (s : String) : Value
  | seq (items : List Value) : Value
  | map (entries : List (String × Value)) : Value

/-- Python `d[k]` / `k in d` on a dict, modelled over the association list:
the first entry with the key wins (keys are unique in dicts built by the code). -/
def mapLookup (entries : List (String × Value)) (k : String) : Option Value :=
  match entries with
  | [] => none
  | (k', v) :: rest => if k' = k then some v else mapLookup rest k

/-- Python `d[k] = v` on a dict: replace in place if the key exists,
otherwise append the new entry at the end (insertion order). -/
def mapInsert (entries : List (String × Value)) (k : String) (v : Value) :
    List (String × Value) :=
  match entries with
  | [] => [(k, v)]
  | (k', v') :: rest =>
      if k' = k then (k', v) :: rest else (k', v') :: mapInsert rest k v

/-- Python `del d[k]` on a dict (no-op when absent; callers guard membership). -/
def mapDelete (entries : List (String × Value)) (k : String) :
    List (String × Value) :=
  match entries with
  | [] => []
  | (k', v') :: rest =>
      if k' = k then rest else (k', v') :: mapDelete rest k

/-- Python `v is None`. -/
def Value.isNull : Value → Bool
  | .null => true
  | _ => false

/-- Valid tail of a Python integer literal: digits, with single underscores
allowed only between two digits (`int("1_2")` works, `int("1__2")` and
`int("1_")` do not). -/
def pyIntRest : List Char → Bool
  | [] => true
  | '_' :: c :: rest => c.isDigit && pyIntRest rest
  | '_' :: [] => false
  | c :: rest => c.isDigit && pyIntRest rest

/-- Whole character list accepted by Python `int()`: nonempty, first char a
digit, rest as in `pyIntRest`. -/
def pyIntChars : List Char → Bool
  | [] => false
  | c :: rest => c.isDigit && pyIntRest rest

/-- Numeric value of such a digit string (underscores skipped). -/
def pyIntVal (cs : List Char) : Nat :=
  cs.foldl (fun a c => if c.isDigit then a * 10 + (c.toNat - 48) else a) 0

/-- Python `int(p)` applied to a path token.  Tokens match `[\w\+]+`, so a
minus sign never occurs; `int` accepts one leading `+`.  `none` models a
raised `ValueError`. -/
def pyInt? (s : String) : Option Nat :=
  match s.toList with
  | '+' :: rest => if pyIntChars rest then some (pyIntVal rest) else none
  | cs => if pyIntChars cs then some (pyIntVal cs) else none

/-- Characters matched by the path splitter regex `[\w\+]+`. -/
def isTokenChar (c : Char) : Bool := c.isAlphanum || c = '_' || c = '+'

/-- Helper for `split_path`: accumulate maximal runs of token characters. -/
def splitAux : List Char → List Char → List String
  | [], acc => if acc.isEmpty then [] else [String.mk acc.reverse]
  | c :: rest, acc =>
      if isTokenChar c then splitAux rest (c :: acc)
      else if acc.isEmpty then splitAux rest []
      else String.mk acc.reverse :: splitAux rest []

/-- `split_path` (obj.py): `re.findall(r"[\w\+]+", path)`. -/
def split_path (s : String) : List String := splitAux s.toList []

/-- `get_path` (obj.py).  Walks the token list; at a list, `int(p)` is
evaluated first and may raise `ValueError` (modelled as `.error`); an
in-range index or a present dict key descends; anything else returns
Python `None` (modelled as `.ok .null`) immediately. -/
def get_path (val : Value) (path : List String) : Except String Value :=
  match path with
  | [] => .ok val
  | p :: rest =>
    match val with
    | .seq items =>
        match pyInt? p with
        | none => .error "ValueError"
        | some i =>
            if h : i < items.length then get_path (items.get ⟨i, h⟩) rest
            else .ok .null
    | .map entries =>
        match mapLookup entries p with
        | some v => get_path v rest
        | none => .ok .null
    | _ => .ok .null

/-- Python `x in s` for strings: substring test (used by `p in val` when the
walked value happens to be a string). -/
def strContainsSub (hay needle : List Char) : Bool :=
  match hay with
  | [] => needle.isEmpty
  | _ :: rest => needle.isPrefixOf hay || strContainsSub rest needle

/-- Python iteration for `list.extend(value)`: lists yield their items,
strings their characters, dicts their keys; scalars raise `TypeError`. -/
def pyIter? : Value → Option (List Value)
  | .seq items => some items
  | .str s => some (s.toList.map (fun c => .str (String.mk [c])))
  | .map entries => some (entries.map (fun kv => .str kv.1))
  | _ => none

/-- Last step of `set_path` (obj.py lines 110-128): store `value` at token
`last` inside `val`. -/
def setFinal (val : Value) (last : String) (value : Value) :
    Except String Value :=
  match val with
  | .seq items =>
      if last = "++" then
        match pyIter? value with
        | some more => .ok (.seq (items ++ more))
        | none => .error "TypeError"
      else if last = "+" then .ok (.seq (items ++ [value]))
      else
        match pyInt? last with
        | none => .error "ValueError"
        | some i =>
            if i = items.length then .ok (.seq (items ++ [value]))
            else if i < items.length then .ok (.seq (items.set i value))
            else .error "IndexError"
  | .map entries => .ok (.map (mapInsert entries last value))
  | _ => .error "TypeError"

/-- Walk of `set_path` (obj.py lines 94-108) over all tokens but the last.
At a list, index (possibly raising); at a dict, follow a present key; a
`0`/`+`/`++` token at an absent key sets the local `val` to a fresh empty
list that is never linked into the tree (the walk continues on the
detached list and its result is discarded); any other absent key creates
and links an empty dict.  `p in val` on a scalar raises `TypeError`; on a
string it is a substring test, and both outcomes of descending into a
string raise `TypeError` unless the token is `0`/`+`/`++`. -/
def setWalk (val : Value) (path : List String) (last : String)
    (value : Value) : Except String Value :=
  match path with
  | [] => setFinal val last value
  | p :: rest =>
    match val with
    | .seq items =>
        match pyInt? p with
        | none => .error "ValueError"
        | some i =>
            if h : i < items.length then
              match setWalk (items.get ⟨i, h⟩) rest last value with
              | .ok child => .ok (.seq (items.set i child))
              | .error e => .error e
            else .error "IndexError"
    | .map entries =>
        match mapLookup entries p with
        | some v =>
            match setWalk v rest last value with
            | .ok child => .ok (.map (mapInsert entries p child))
            | .error e => .error e
        | none =>
            if p = "0" || p = "+" || p = "++" then
              match setWalk (.seq []) rest last value with
              | .ok _ => .ok (.map entries)
              | .error e => .error e
            else
              match setWalk (.map []) rest last value with
              | .ok child => .ok (.map (mapInsert entries p child))
              | .error e => .error e
    | .str s =>
        if strContainsSub s.toList p.toList then .error "TypeError"
        else if p = "0" || p = "+" || p = "++" then
          match setWalk (.seq []) rest last value with
          | .ok _ => .ok (.str s)
          | .error e => .error e
        else .error "TypeError"
    | _ => .error "TypeError"

/-- `set_path` (obj.py).  `path.pop()` on an empty token list raises
`IndexError`; otherwise the walk above runs on all but the last token. -/
def set_path (obj : Value) (path : List String) (value : Value) :
    Except String Value :=
  match path.getLast? with
  | none => .error "IndexError"
  | some last => setWalk obj path.dropLast last value

/-- A value that is neither a Python list nor a dict (both `isinstance`
tests in `get_path` fail on it). -/
def isScalar : Value → Bool
  | .null => true
  | .bool _ => true
  | .int _ => true
  | .str _ => true
  | .seq _ => false
  | .map _ => false

/-- A path resolves to an existing position in a tree: every token descends
through a present dict key or an in-range list index (this is exactly the
condition under which `get_path` neither raises nor cuts off at `None`). -/
def validPath (val : Value) (path : List String) : Bool :=
  match path with
  | [] => true
  | p :: rest =>
    match val with
    | .seq items =>
        match pyInt? p with
        | none => false
        | some i =>
            if h : i < items.length then validPath (items.get ⟨i, h⟩) rest
            else false
    | .map entries =>
        match mapLookup entries p with
        | some v => validPath v rest
        | none => false
    | _ => false

/-! ## InvalidObject (objdict.py): the Missing sentinel -/

/-- A Python object as handled by the `InvalidObject` protocol methods:
either the `INVALID` singleton itself or an ordinary value (`Value.null`
models `None`). -/
inductive PyObj where
  | invalid : PyObj
  | obj (v : Value) : PyObj

/-- `InvalidObject.__eq__`: `other is INVALID or other is None`.  (Python
computes `!=` by negating this, since no `__ne__` is defined.) -/
def InvalidObject.eq : PyObj → Bool
  | .invalid => true
  | .obj .null => true
  | .obj _ => false

/-- `InvalidObject.__getattr__`: every attribute read yields `INVALID`. -/
def InvalidObject.getattr (key : String) : PyObj := .invalid

/-- `InvalidObject.__getitem__`: every index read yields `INVALID`. -/
def InvalidObject.getitem (index : Int) : PyObj := .invalid

/-- `InvalidObject.__bool__`. -/
def InvalidObject.toBool : Bool := false

/-- `InvalidObject.__iter__` returns `iter([])`: iterating yields zero
items without raising. -/
def InvalidObject.iter : List PyObj := []

/-- `InvalidObject.__str__` raises a `DocumentException` mentioning the
`MISSING` debug global (passed here as an argument). -/
def InvalidObject.str (missingKey : String) : Except String String :=
  .error ("Attempting to display a non-existent value MISSING=" ++ missingKey)

/-- `InvalidObject.__next__` also raises (but iteration goes through
`__iter__`, so a `for` loop never calls it). -/
def InvalidObject.next (missingKey : String) : Except String PyObj :=
  .error ("Attempting to iterate a non-existent value MISSING=" ++ missingKey)

/-! ## Elements and query streams (scope.py) -/

/-- `Element.is_instance` (scope.py): `self._types and
(set(self._types) & set(types))`, used for its truthiness.  A missing
`_types` reads as the falsy `INVALID`; a present list is truthy iff
nonempty, and the set intersection is truthy iff some `_types` entry is one
of the requested tags.  (`_types` is always a sequence on an Element, per
the data-model invariant; other shapes are not modelled.) -/
def Element.is_instance (e : Value) (types : List String) : Bool :=
  match e with
  | .map entries =>
      match mapLookup entries "_types" with
      | some (.seq ts) =>
          !ts.isEmpty && ts.any (fun t =>
            match t with
            | .str s => types.contains s
            | _ => false)
      | _ => false
  | _ => false

/-- `Element.is_not_instance` (scope.py): `self._types and not
(set(self._types) & set(types))`. -/
def Element.is_not_instance (e : Value) (types : List String) : Bool :=
  match e with
  | .map entries =>
      match mapLookup entries "_types" with
      | some (.seq ts) =>
          !ts.isEmpty && !(ts.any (fun t =>
            match t with
            | .str s => types.contains s
            | _ => false))
      | _ => false
  | _ => false

/-- `QueryStream.is_instance` (unmemoized): keep the elements of the stream
satisfying `Element.is_instance`.  Streams are modelled by the list of the
elements they yield. -/
def QueryStream.is_instance (elems : List Value) (types : List String) :
    List Value :=
  elems.filter (fun e => Element.is_instance e types)

/-- `next(stream, INVALID)` on a stream modelled as a list: the first
element (or `none` for the `INVALID` default) and the rest of the stream. -/
def nextOr (elems : List Value) : Option Value × List Value :=
  match elems with
  | [] => (none, [])
  | x :: rest => (some x, rest)

/-- `QueryStream.optional` (scope.py): take one element; if a second one
exists raise `DocumentException("scribble query returned more than one
choice")`; otherwise return the element (`none` models `INVALID`). -/
def QueryStream.optional (elems : List Value) : Except String (Option Value) :=
  let (element, s1) := nextOr elems
  let (second, _) := nextOr s1
  match second with
  | some _ => .error "scribble query returned more than one choice"
  | none => .ok element

/-- `QueryStream.one` (scope.py): `optional()` (propagating its exception),
then fail on the `INVALID` result of an empty stream. -/
def QueryStream.one (elems : List Value) : Except String Value :=
  match QueryStream.optional elems with
  | .error e => .error e
  | .ok none => .error "scribble query \x27one\x27 encountered an empty list."
  | .ok (some e) => .ok e

/-! ## Python str() (used by grouped and by f-string directory names) -/

mutual
/-- Python `repr` of a value (escape sequences inside strings are not
modelled; the claims only exercise scalar keys). -/
def pyRepr : Value → String
  | .null => "None"
  | .bool true => "True"
  | .bool false => "False"
  | .int n => toString n
  | .str s => "\x27" ++ s ++ "\x27"
  | .seq items => "[" ++ pyReprItems items ++ "]"
  | .map entries => "\x7b" ++ pyReprEntries entries ++ "\x7d"

/-- Comma-joined reprs of list items. -/
def pyReprItems : List Value → String
  | [] => ""
  | [v] => pyRepr v
  | v :: rest => pyRepr v ++ ", " ++ pyReprItems rest

/-- Comma-joined `'key': repr` pairs of dict entries. -/
def pyReprEntries : List (String × Value) → String
  | [] => ""
  | [(k, v)] => "\x27" ++ k ++ "\x27: " ++ pyRepr v
  | (k, v) :: rest =>
      "\x27" ++ k ++ "\x27: " ++ pyRepr v ++ ", " ++ pyReprEntries rest
end

/-- Python `str`: identical to `repr` except on strings themselves. -/
def pyStr : Value → String
  | .str s => s
  | v => pyRepr v

/-! ## grouped / grouped_by (obj.py) -/

/-- One step of the `grouped` loop: append `item` to the group keyed `k`,
creating the group at the end when the key is new (`OrderedDict` keeps
first-insertion order). -/
def addToGroup {α : Type} (groups : List (String × List α)) (k : String)
    (item : α) : List (String × List α) :=
  match groups with
  | [] => [(k, [item])]
  | (k', g) :: rest =>
      if k' = k then (k', g ++ [item]) :: rest
      else (k', g) :: addToGroup rest k item

/-- `grouped` (obj.py): partition a sequence into ordered groups keyed by
`str(key(item))`, returning `list(groups.values())`. -/
def grouped {α : Type} (seq : List α) (key : α → Value) : List (List α) :=
  (seq.foldl (fun gs item => addToGroup gs (pyStr (key item)) item) []).map
    Prod.snd

/-- Loop of `grouped` as called from `grouped_by`: the key of each item is
`get_path(item, path)`, whose `ValueError` propagates. -/
def groupedByAux (path : List String) :
    List Value → List (String × List Value) →
    Except String (List (String × List Value))
  | [], gs => .ok gs
  | x :: rest, gs =>
      match get_path x path with
      | .error e => .error e
      | .ok v => groupedByAux path rest (addToGroup gs (pyStr v) x)

/-- `grouped_by` (obj.py): `grouped(seq, key=lambda item: get_path(item,
path))`. -/
def grouped_by (seq : List Value) (path : List String) :
    Except String (List (List Value)) :=
  (groupedByAux path seq []).map (fun gs => gs.map Prod.snd)

/-- First-occurrence deduplication of string keys, skipping those already
`seen` (specification-side helper for the grouped theorems). -/
def dedupAcc (seen : List String) : List String → List String
  | [] => []
  | k :: rest =>
      if k ∈ seen then dedupAcc seen rest
      else k :: dedupAcc (k :: seen) rest

/-! ## SimpleObjdict writes (objdict.py) -/

/-- `keepers` (objdict.py): drop the entries whose value `is None`. -/
def keepers (d : List (String × Value)) : List (String × Value) :=
  d.filter (fun kv => !kv.2.isNull)

/-- `SimpleObjdict.__init__`: `{**{k: v for k, v in old.items() if k not in
kwargs}, **kwargs}` passed through `keepers`. -/
def SimpleObjdict.init (old kwargs : List (String × Value)) :
    List (String × Value) :=
  keepers (old.filter (fun kv => (mapLookup kwargs kv.1).isNone) ++ kwargs)

/-- `SimpleObjdict.update`: for each pair of `joined = dict(other,
**kwargs)` (supplied here already merged), a `None` value deletes the key
when present, any other value is stored. -/
def SimpleObjdict.update (self joined : List (String × Value)) :
    List (String × Value) :=
  joined.foldl
    (fun acc kv =>
      if kv.2.isNull then mapDelete acc kv.1 else mapInsert acc kv.1 kv.2)
    self

/-! ## Fixup engine (fixup.py) -/

/-- `apply_patches` (fixup.py): `set_path` for each path→value pair of the
patch, in the dict's insertion order; a raised exception propagates. -/
def apply_patches (element : Value)
    (patches : List (List String × Value)) : Except String Value :=
  match patches with
  | [] => .ok element
  | (path, v) :: rest =>
      match set_path element path v with
      | .ok e2 => apply_patches e2 rest
      | .error e => .error e

/-- `apply_fixup_patches` (fixup.py): read `dir/Fixup.yaml` (an absent
file, `patchAt dir = none`, is suppressed) and apply it when the patch
dict is truthy (nonempty).  `patchAt` models the fixup files on disk. -/
def apply_fixup_patches
    (patchAt : String → Option (List (List String × Value)))
    (element : Value) (dir : String) : Except String Value :=
  match patchAt dir with
  | none => .ok element
  | some patches =>
      if patches.isEmpty then .ok element
      else apply_patches element patches

/-- `apply_fixup_function` (fixup.py): load `dir/Fixup.py` and apply its
`Fixup(element, document)` function when present.  `funcAt` models the
loaded fixup functions (pure here; the document argument is dropped). -/
def apply_fixup_function (funcAt : String → Option (Value → Value))
    (element : Value) (dir : String) : Value :=
  match funcAt dir with
  | none => element
  | some f => f element

/-- `fixup_element` (fixup.py): imperative function first, then the patch. -/
def fixup_element (funcAt : String → Option (Value → Value))
    (patchAt : String → Option (List (List String × Value)))
    (element : Value) (dir : String) : Except String Value :=
  apply_fixup_patches patchAt (apply_fixup_function funcAt element dir) dir

/-- Inner loop of `fixup_snippet`: one type tag against every snippet
directory. -/
def fixupDirs (funcAt : String → Option (Value → Value))
    (patchAt : String → Option (List (List String × Value)))
    (element : Value) : List String → Except String Value
  | [] => .ok element
  | d :: rest =>
      match fixup_element funcAt patchAt element d with
      | .ok e2 => fixupDirs funcAt patchAt e2 rest
      | .error e => .error e

/-- Outer loop of `fixup_snippet` over the (already reversed) type tags. -/
def fixupTypes (funcAt : String → Option (Value → Value))
    (patchAt : String → Option (List (List String × Value)))
    (snippets : List String) (element : Value) :
    List String → Except String Value
  | [] => .ok element
  | t :: rest =>
      match fixupDirs funcAt patchAt element
          (snippets.map (fun d => d ++ "/components/" ++ t)) with
      | .ok e2 => fixupTypes funcAt patchAt snippets e2 rest
      | .error e => .error e

/-- `fixup_snippet` (fixup.py): when `element._types` is truthy, for every
type tag in `reversed(element._types)` and every snippet directory, apply
`fixup_element` at `dir/components/typ` (the tag is formatted into the
directory name with `str`). -/
def fixup_snippet (funcAt : String → Option (Value → Value))
    (patchAt : String → Option (List (List String × Value)))
    (snippets : List String) (element : Value) : Except String Value :=
  match element with
  | .map entries =>
      match mapLookup entries "_types" with
      | some (.seq ts) =>
          if ts.isEmpty then .ok element
          else fixupTypes funcAt patchAt snippets element
            ((ts.map pyStr).reverse)
      | _ => .ok element
  | _ => .ok element

/-! ## Memoized is_instance (scope.py) -/

/-- The process-wide `MemoizedQueryStream.memo` dictionary: keys are
`(id(element), *types)`, values the collected query results. -/
abbrev MemoTable := List ((Nat × List String) × List Value)

/-- Dictionary lookup in the memo table. -/
def memoLookup (memo : MemoTable) (key : Nat × List String) :
    Option (List Value) :=
  match memo with
  | [] => none
  | (k', r) :: rest => if k' = key then some r else memoLookup rest key

/-- `MemoizedQueryStream.is_instance` (scope.py).  The mutable class-level
table is passed and returned explicitly; `env eid` is the stream of subtree
elements that the element with id `eid` yields when queried (well defined
because the tree is frozen while memoization is enabled).  When disabled,
fall through to the plain filter; otherwise clear the table if it has more
than 1024 entries, then serve from it or fill it. -/
def MemoizedQueryStream.is_instance (env : Nat → List Value)
    (enabled : Bool) (memo : MemoTable) (eid : Nat) (types : List String) :
    List Value × MemoTable :=
  if !enabled then (QueryStream.is_instance (env eid) types, memo)
  else
    let memo1 := if memo.length > 1024 then [] else memo
    match memoLookup memo1 (eid, types) with
    | some results => (results, memo1)
    | none =>
        let results := QueryStream.is_instance (env eid) types
        (results, memo1 ++ [((eid, types), results)])

/-- Every entry of the memo table is the unmemoized query result for its
key (maintained because the tree is frozen). -/
def memoCoherent (env : Nat → List Value) (memo : MemoTable) : Prop :=
  ∀ key results, memoLookup memo key = some results →
    results = QueryStream.is_instance (env key.1) key.2

/-! ## Lemmas about the association-list dictionary model -/

theorem mapLookup_eq_none_of_not_mem (m : List (String × Value)) (k : String)
    (h : k ∉ m.map Prod.fst) : mapLookup m k = none := by
  induction m with
  | nil => rfl
  | cons kv rest ih =>
      obtain ⟨k0, v0⟩ := kv
      simp only [List.map_cons, List.mem_cons, not_or] at h
      rw [mapLookup, if_neg (fun hh => h.1 hh.symm)]
      exact ih h.2

theorem mapLookup_mapDelete_self (m : List (String × Value)) (k : String)
    (h : (m.map Prod.fst).Nodup) : mapLookup (mapDelete m k) k = none := by
  induction m with
  | nil => rfl
  | cons kv rest ih =>
      obtain ⟨k0, v0⟩ := kv
      simp only [List.map_cons, List.nodup_cons] at h
      rw [mapDelete]
      by_cases hk : k0 = k
      · rw [if_pos hk]
        exact mapLookup_eq_none_of_not_mem rest k (hk ▸ h.1)
      · rw [if_neg hk, mapLookup, if_neg hk]
        exact ih h.2

theorem mem_mapDelete (m : List (String × Value)) (k : String)
    (kv : String × Value) (h : kv ∈ mapDelete m k) : kv ∈ m := by
  induction m with
  | nil => exact absurd h (by simp [mapDelete])
  | cons kv0 rest ih =>
      obtain ⟨k0, v0⟩ := kv0
      rw [mapDelete] at h
      split at h
      · exact List.mem_cons_of_mem _ h
      · rcases List.mem_cons.mp h with h1 | h2
        · exact h1 ▸ List.mem_cons_self _ _
        · exact List.mem_cons_of_mem _ (ih h2)

theorem mem_mapInsert (m : List (String × Value)) (k : String) (v : Value)
    (kv : String × Value) (h : kv ∈ mapInsert m k v) :
    kv ∈ m ∨ kv = (k, v) := by
  induction m with
  | nil =>
      rw [mapInsert] at h
      exact Or.inr (List.mem_singleton.mp h)
  | cons kv0 rest ih =>
      obtain ⟨k0, v0⟩ := kv0
      rw [mapInsert] at h
      split at h
      case isTrue heq =>
        rcases List.mem_cons.mp h with h1 | h2
        · exact Or.inr (by rw [h1, heq])
        · exact Or.inl (List.mem_cons_of_mem _ h2)
      case isFalse heq =>
        rcases List.mem_cons.mp h with h1 | h2
        · exact Or.inl (h1 ▸ List.mem_cons_self _ _)
        · rcases ih h2 with h3 | h3
          · exact Or.inl (List.mem_cons_of_mem _ h3)
          · exact Or.inr h3

theorem mem_keepers_not_null (d : List (String × Value))
    (kv : String × Value) (h : kv ∈ keepers d) : kv.2.isNull = false := by
  have := (List.mem_filter.mp h).2
  simpa using this

theorem mapLookup_mapInsert_self (entries : List (String × Value)) (k : String)
    (v : Value) : mapLookup (mapInsert entries k v) k = some v := by
  induction entries with
  | nil => simp [mapInsert, mapLookup]
  | cons kv rest ih =>
      obtain ⟨k', v'⟩ := kv
      by_cases h : k' = k
      · simp [mapInsert, mapLookup, h]
      · simp [mapInsert, mapLookup, h, ih]

/-- Core of the set/get round trip: when every token of `init ++ [last]`
resolves in `T`, the walk of `set_path` succeeds and `get_path` reads the
stored value back along the same tokens. -/
theorem setWalk_roundtrip (V : Value) :
    ∀ (init : List String) (T : Value) (last : String),
      validPath T (init ++ [last]) = true →
      ∃ T', setWalk T init last V = .ok T' ∧
        get_path T' (init ++ [last]) = .ok V := by
  intro init
  induction init with
  | nil =>
      intro T last hv
      cases T with
      | null => simp [validPath] at hv
      | bool b => simp [validPath] at hv
      | int n => simp [validPath] at hv
      | str s => simp [validPath] at hv
      | seq items =>
          cases hpi : pyInt? last with
          | none => simp [validPath, hpi] at hv
          | some i =>
              simp only [List.nil_append, validPath, hpi] at hv
              split at hv
              case isTrue h =>
                have hpp : last ≠ "++" := by
                  rintro rfl
                  rw [show pyInt? "++" = none from by decide] at hpi
                  exact Option.noConfusion hpi
                have hp : last ≠ "+" := by
                  rintro rfl
                  rw [show pyInt? "+" = none from by decide] at hpi
                  exact Option.noConfusion hpi
                refine ⟨.seq (items.set i V), ?_, ?_⟩
                · simp only [setWalk, setFinal, if_neg hpp, if_neg hp, hpi]
                  rw [if_neg (Nat.ne_of_lt h), if_pos h]
                · have hlen : i < (items.set i V).length := by simpa using h
                  simp only [List.nil_append, get_path, hpi]
                  rw [dif_pos hlen, List.get_set_eq]
              case isFalse h => simp at hv
      | map entries =>
          cases hL : mapLookup entries last with
          | none => simp [validPath, hL] at hv
          | some v =>
              refine ⟨.map (mapInsert entries last V), rfl, ?_⟩
              simp only [List.nil_append, get_path, mapLookup_mapInsert_self]
  | cons p init' ih =>
      intro T last hv
      cases T with
      | null => simp [validPath] at hv
      | bool b => simp [validPath] at hv
      | int n => simp [validPath] at hv
      | str s => simp [validPath] at hv
      | seq items =>
          cases hpi : pyInt? p with
          | none => simp [validPath, hpi] at hv
          | some i =>
              simp only [List.cons_append, validPath, hpi] at hv
              split at hv
              case isTrue h =>
                obtain ⟨c', hset, hget⟩ := ih (items.get ⟨i, h⟩) last hv
                refine ⟨.seq (items.set i c'), ?_, ?_⟩
                · simp only [List.cons_append, setWalk, hpi]
                  rw [dif_pos h, hset]
                · have hlen : i < (items.set i c').length := by simpa using h
                  simp only [List.cons_append, get_path, hpi]
                  rw [dif_pos hlen, List.get_set_eq]
                  exact hget
              case isFalse h => simp at hv
      | map entries =>
          cases hL : mapLookup entries p with
          | none => simp [validPath, hL] at hv
          | some v =>
              simp only [List.cons_append, validPath, hL] at hv
              obtain ⟨c', hset, hget⟩ := ih v last hv
              refine ⟨.map (mapInsert entries p c'), ?_, ?_⟩
              · simp only [List.cons_append, setWalk, hL]
                rw [hset]
              · simp only [List.cons_append, get_path, mapLookup_mapInsert_self]
                exact hget

/-- C1 (amended: the path must be nonempty, `set_path` raises `IndexError`
on an empty token list): for every tree `T`, nonempty path `P` resolving to
an existing position of `T`, and value `V`, `set_path` succeeds and
`get_path` on the updated tree returns `V`. -/
theorem c1_set_get_roundtrip (T V : Value) (P : List String) (hne : P ≠ [])
    (hv : validPath T P = true) :
    ∃ T', set_path T P V = .ok T' ∧ get_path T' P = .ok V := by
  obtain ⟨init, last, rfl⟩ : ∃ init last, P = init ++ [last] :=
    ⟨P.dropLast, P.getLast hne, (List.dropLast_concat_getLast hne).symm⟩
  have hrw : set_path T (init ++ [last]) V = setWalk T init last V := by
    simp [set_path, List.getLast?_concat, List.dropLast_concat]
  rw [hrw]
  exact setWalk_roundtrip V init T last hv

/-- Witness for C1 at the tree `{a: 1}`, path `a`, value `2`. -/
theorem c1_set_get_roundtrip_witness :
    validPath (Value.map [("a", .int 1)]) ["a"] = true ∧
    ∃ T', set_path (Value.map [("a", .int 1)]) ["a"] (.int 2) = .ok T' ∧
      get_path T' ["a"] = .ok (.int 2) :=
  ⟨by decide, c1_set_get_roundtrip _ _ _ (by decide) (by decide)⟩

/-- C1 counterexample to the claim as stated: at the empty path,
`get_path` is defined (it returns the tree itself), but `set_path` raises
`IndexError` (`path.pop()` on an empty list), so no round trip holds. -/
theorem c1_counterexample :
    get_path (Value.map [("a", .int 1)]) (split_path "") =
      .ok (Value.map [("a", .int 1)]) ∧
    ¬ ∃ T', set_path (Value.map [("a", .int 1)]) (split_path "") (.int 2) =
        .ok T' ∧ get_path T' (split_path "") = .ok (.int 2) := by
  refine ⟨rfl, ?_⟩
  rintro ⟨T', h, -⟩
  rw [show set_path (Value.map [("a", .int 1)]) (split_path "") (.int 2) =
      .error "IndexError" from rfl] at h
  exact Except.noConfusion h

/-- C2: `set_path` on tree `{}`, path `a.0.0`, value `5` — the `0` token at
the absent position makes the walk bind its local variable to a fresh empty
list that is never linked into the tree, so the final append lands in a
detached list: the resulting tree is `{a: {}}` and the stored value `5` is
unreachable from the root (`get_path` on the same path yields `None`). -/
theorem c2_detached_sequence :
    set_path (Value.map []) ["a", "0", "0"] (.int 5) =
      .ok (Value.map [("a", .map [])]) ∧
    get_path (Value.map [("a", .map [])]) ["a", "0", "0"] = .ok .null :=
  ⟨rfl, rfl⟩

/-- C3 (amended: on an absent position — key not present in a Map,
out-of-range integer token against a Sequence, or descent into a scalar —
`get_path` returns `None` without raising; but a non-integer token while
the current value is a Sequence raises `ValueError`). -/
theorem c3_get_absent :
    (∀ (entries : List (String × Value)) (p : String) (rest : List String),
        mapLookup entries p = none →
        get_path (.map entries) (p :: rest) = .ok .null) ∧
    (∀ (items : List Value) (p : String) (i : Nat) (rest : List String),
        pyInt? p = some i → items.length ≤ i →
        get_path (.seq items) (p :: rest) = .ok .null) ∧
    (∀ (v : Value) (p : String) (rest : List String),
        isScalar v = true → get_path v (p :: rest) = .ok .null) ∧
    (∀ (items : List Value) (p : String) (rest : List String),
        pyInt? p = none →
        get_path (.seq items) (p :: rest) = .error "ValueError") := by
  refine ⟨?_, ?_, ?_, ?_⟩
  · intro entries p rest hL
    simp [get_path, hL]
  · intro items p i rest hpi hle
    simp only [get_path, hpi]
    rw [dif_neg (Nat.not_lt.mpr hle)]
  · intro v p rest hs
    cases v with
    | null => simp [get_path]
    | bool b => simp [get_path]
    | int n => simp [get_path]
    | str s => simp [get_path]
    | seq items => simp [isScalar] at hs
    | map entries => simp [isScalar] at hs
  · intro items p rest hpi
    simp [get_path, hpi]

/-- Witness for C3 at concrete absent positions and a concrete raising one. -/
theorem c3_get_absent_witness :
    get_path (Value.map []) ["a"] = .ok .null ∧
    get_path (Value.seq [.int 7]) ["3"] = .ok .null ∧
    get_path (Value.int 7) ["a"] = .ok .null ∧
    get_path (Value.seq [.int 7]) ["x"] = .error "ValueError" :=
  ⟨c3_get_absent.1 [] "a" [] rfl,
   c3_get_absent.2.1 [.int 7] "3" 3 [] (by decide) (by decide),
   c3_get_absent.2.2.1 (.int 7) "a" [] rfl,
   c3_get_absent.2.2.2 [.int 7] "x" [] (by decide)⟩

/-- C3 counterexample to the claim as stated: `get_path` on the list `[5]`
with the non-integer token `x` does not return at all — `int("x")` raises
`ValueError` — contradicting "returns the Missing sentinel and never
raises". -/
theorem c3_counterexample :
    ¬ ∃ v, get_path (Value.seq [.int 5]) ["x"] = .ok v := by
  rintro ⟨v, h⟩
  rw [show get_path (Value.seq [.int 5]) ["x"] = .error "ValueError"
      from rfl] at h
  exact Except.noConfusion h

/-- C4: the Missing sentinel equals itself and `None`, is unequal to the
empty Map and the empty Sequence, is falsy, propagates through attribute
and index access, iterates as an empty iterable, and raises when converted
to a display string. -/
theorem c4_invalid_object_properties :
    InvalidObject.eq .invalid = true ∧
    InvalidObject.eq (.obj .null) = true ∧
    InvalidObject.eq (.obj (.map [])) = false ∧
    InvalidObject.eq (.obj (.seq [])) = false ∧
    InvalidObject.toBool = false ∧
    (∀ key, InvalidObject.getattr key = .invalid) ∧
    (∀ index, InvalidObject.getitem index = .invalid) ∧
    InvalidObject.iter = ([] : List PyObj) ∧
    (∀ mk, ∃ msg, InvalidObject.str mk = .error msg) :=
  ⟨rfl, rfl, rfl, rfl, rfl, fun _ => rfl, fun _ => rfl, rfl,
   fun mk => ⟨_, rfl⟩⟩

/-- C7: `one()` fails on an empty stream with the empty-query arity error,
fails on two or more elements with the multiple-choices arity error, and
returns the element of a singleton stream; `optional()` returns `INVALID`
(modelled `none`) on an empty stream, the element on a singleton, and fails
with the multiple-choices error on longer streams. -/
theorem c7_one_optional_arity :
    QueryStream.one ([] : List Value) =
      .error "scribble query \x27one\x27 encountered an empty list." ∧
    (∀ e : Value, QueryStream.one [e] = .ok e) ∧
    (∀ (e1 e2 : Value) (rest : List Value),
        QueryStream.one (e1 :: e2 :: rest) =
          .error "scribble query returned more than one choice") ∧
    QueryStream.optional ([] : List Value) = .ok none ∧
    (∀ e : Value, QueryStream.optional [e] = .ok (some e)) ∧
    (∀ (e1 e2 : Value) (rest : List Value),
        QueryStream.optional (e1 :: e2 :: rest) =
          .error "scribble query returned more than one choice") :=
  ⟨rfl, fun _ => rfl, fun _ _ _ => rfl, rfl, fun _ => rfl, fun _ _ _ => rfl⟩

/-- C8 (amended: `is_not_instance` additionally requires a nonempty
`_types` list — an element whose `_types` is the empty list is kept by
neither filter): `is_instance` holds iff some `_types` tag is among the
queried tags, `is_not_instance` holds iff `_types` is nonempty and no tag
is; the concrete `_types=["A"]` cases behave as claimed. -/
theorem c8_is_instance_intersection :
    (∀ (entries : List (String × Value)) (ts : List Value)
        (types : List String),
        mapLookup entries "_types" = some (.seq ts) →
        (Element.is_instance (.map entries) types = true ↔
          ∃ s, Value.str s ∈ ts ∧ s ∈ types)) ∧
    (∀ (entries : List (String × Value)) (ts : List Value)
        (types : List String),
        mapLookup entries "_types" = some (.seq ts) →
        (Element.is_not_instance (.map entries) types = true ↔
          ts ≠ [] ∧ ¬ ∃ s, Value.str s ∈ ts ∧ s ∈ types)) ∧
    Element.is_instance (.map [("_types", .seq [.str "A"])]) ["A"] = true ∧
    Element.is_instance (.map [("_types", .seq [.str "A"])]) ["A", "B"] =
      true ∧
    Element.is_instance (.map [("_types", .seq [.str "A"])]) ["C"] = false := by
  have hbridge : ∀ (ts : List Value) (types : List String),
      (ts.any (fun t =>
        match t with
        | .str s => types.contains s
        | _ => false)) = true ↔ ∃ s, Value.str s ∈ ts ∧ s ∈ types := by
    intro ts types
    rw [List.any_eq_true]
    constructor
    · rintro ⟨x, hx, hpx⟩
      cases x with
      | str s => exact ⟨s, hx, by simpa using hpx⟩
      | null => simp at hpx
      | bool b => simp at hpx
      | int n => simp at hpx
      | seq l => simp at hpx
      | map m => simp at hpx
    · rintro ⟨s, hs, hmem⟩
      exact ⟨.str s, hs, by simpa using hmem⟩
  refine ⟨?_, ?_, by decide, by decide, by decide⟩
  · intro entries ts types h
    simp only [Element.is_instance, h]
    rw [Bool.and_eq_true, hbridge]
    constructor
    · exact fun hb => hb.2
    · rintro ⟨s, hs, hmem⟩
      refine ⟨?_, ⟨s, hs, hmem⟩⟩
      cases ts with
      | nil => cases hs
      | cons a l => simp
  · intro entries ts types h
    simp only [Element.is_not_instance, h]
    rw [Bool.and_eq_true]
    constructor
    · rintro ⟨h1, h2⟩
      constructor
      · rintro rfl
        simp at h1
      · intro hex
        rw [(hbridge ts types).mpr hex] at h2
        simp at h2
    · rintro ⟨hne, hno⟩
      constructor
      · cases ts with
        | nil => exact absurd rfl hne
        | cons a l => simp
      · have hany : (ts.any fun t =>
            match t with
            | Value.str s => types.contains s
            | _ => false) = false :=
          Bool.eq_false_iff.mpr (fun ha => hno ((hbridge ts types).mp ha))
        rw [hany]
        rfl

/-- Witness for C8 on the element with `_types=["A"]`. -/
theorem c8_is_instance_intersection_witness :
    mapLookup [("_types", Value.seq [.str "A"])] "_types" =
      some (.seq [.str "A"]) ∧
    (Element.is_instance (.map [("_types", .seq [.str "A"])]) ["A"] = true ↔
      ∃ s, Value.str s ∈ [Value.str "A"] ∧ s ∈ ["A"]) :=
  ⟨rfl, c8_is_instance_intersection.1 _ _ _ rfl⟩

/-- C8 counterexample to the claim as stated: an element whose `_types`
list is empty has empty intersection with `{"A"}`, yet `is_not_instance`
does not keep it (`self._types` is falsy, so the conjunction short-circuits
to the empty list). -/
theorem c8_counterexample :
    ¬ (Element.is_not_instance (.map [("_types", .seq [])]) ["A"] = true ↔
        ¬ ∃ s, Value.str s ∈ ([] : List Value) ∧ s ∈ ["A"]) := by
  intro h
  have hres := h.mpr (by rintro ⟨s, hs, -⟩; cases hs)
  rw [show Element.is_not_instance (.map [("_types", .seq [])]) ["A"] = false
      from rfl] at hres
  exact Bool.noConfusion hres

theorem memoLookup_append_left (m m2 : MemoTable) (k : Nat × List String)
    (r0 : List Value) (h : memoLookup m k = some r0) :
    memoLookup (m ++ m2) k = some r0 := by
  induction m with
  | nil => exact Option.noConfusion h
  | cons kv rest ih =>
      obtain ⟨k0, r1⟩ := kv
      rw [memoLookup] at h
      rw [List.cons_append, memoLookup]
      by_cases hk : k0 = k
      · rw [if_pos hk] at h ⊢
        exact h
      · rw [if_neg hk] at h ⊢
        exact ih h

theorem memoLookup_append_right (m m2 : MemoTable) (k : Nat × List String)
    (h : memoLookup m k = none) : memoLookup (m ++ m2) k = memoLookup m2 k := by
  induction m with
  | nil => rfl
  | cons kv rest ih =>
      obtain ⟨k0, r1⟩ := kv
      rw [memoLookup] at h
      rw [List.cons_append, memoLookup]
      by_cases hk : k0 = k
      · rw [if_pos hk] at h
        exact Option.noConfusion h
      · rw [if_neg hk] at h ⊢
        exact ih h

/-- The enabled body of the memoized query, with the class-level
reassignment unfolded. -/
theorem memoized_is_instance_eq (env : Nat → List Value) (memo : MemoTable)
    (eid : Nat) (types : List String) :
    MemoizedQueryStream.is_instance env true memo eid types =
      (match memoLookup (if memo.length > 1024 then [] else memo)
          (eid, types) with
       | some results => (results, if memo.length > 1024 then [] else memo)
       | none =>
           (QueryStream.is_instance (env eid) types,
            (if memo.length > 1024 then [] else memo) ++
              [((eid, types), QueryStream.is_instance (env eid) types)])) :=
  rfl

/-- C6: with memoization enabled, the fast path returns exactly the
unmemoized `is_instance` result (same elements, same order) for any
coherent cache state; the resulting cache stays coherent, so subsequent
lookups also return correct results; when the table holds more than 1024
entries it is cleared wholesale (at most one entry remains afterwards),
and otherwise it grows by at most the one fresh entry; with memoization
disabled the plain filter is used. -/
theorem c6_memoized_is_instance_correct :
    ∀ (env : Nat → List Value) (memo : MemoTable) (eid : Nat)
      (types : List String), memoCoherent env memo →
      ((MemoizedQueryStream.is_instance env true memo eid types).1 =
          QueryStream.is_instance (env eid) types ∧
        memoCoherent env
          (MemoizedQueryStream.is_instance env true memo eid types).2 ∧
        (memo.length > 1024 →
          (MemoizedQueryStream.is_instance env true memo eid
            types).2.length ≤ 1) ∧
        (¬ memo.length > 1024 →
          (MemoizedQueryStream.is_instance env true memo eid
            types).2.length ≤ memo.length + 1)) ∧
      (MemoizedQueryStream.is_instance env false memo eid types).1 =
        QueryStream.is_instance (env eid) types := by
  intro env memo eid types hc
  refine ⟨?_, rfl⟩
  rw [memoized_is_instance_eq]
  by_cases hlen : memo.length > 1024
  · rw [if_pos hlen]
    rw [show memoLookup ([] : MemoTable) (eid, types) = none from rfl]
    refine ⟨rfl, ?_, fun _ => by simp, fun h => absurd hlen h⟩
    intro k r h
    rw [List.nil_append, memoLookup] at h
    split at h
    next heq =>
      injection h with h'
      rw [← heq, ← h']
    next heq => exact Option.noConfusion h
  · rw [if_neg hlen]
    cases hL : memoLookup memo (eid, types) with
    | some r =>
        refine ⟨hc (eid, types) r hL, hc, fun h => absurd h hlen, fun _ => ?_⟩
        exact Nat.le_succ _
    | none =>
        refine ⟨rfl, ?_, fun h => absurd h hlen, fun _ => by simp⟩
        intro k r h
        cases hL2 : memoLookup memo k with
        | some r0 =>
            rw [memoLookup_append_left memo _ k r0 hL2] at h
            injection h with h'
            rw [← h']
            exact hc k r0 hL2
        | none =>
            rw [memoLookup_append_right memo _ k hL2, memoLookup] at h
            split at h
            next heq =>
              injection h with h'
              rw [← heq, ← h']
            next heq => exact Option.noConfusion h

/-- Witness for C6 with an empty (trivially coherent) cache and a concrete
frozen one-element stream. -/
theorem c6_memoized_is_instance_correct_witness :
    memoCoherent (fun _ => [Value.map [("_types", Value.seq [.str "A"])]])
      ([] : MemoTable) ∧
    (MemoizedQueryStream.is_instance
        (fun _ => [Value.map [("_types", Value.seq [.str "A"])]])
        true [] 0 ["A"]).1 =
      QueryStream.is_instance [Value.map [("_types", Value.seq [.str "A"])]]
        ["A"] := by
  have hc : memoCoherent
      (fun _ => [Value.map [("_types", Value.seq [.str "A"])]])
      ([] : MemoTable) := by
    intro k r h
    exact Option.noConfusion h
  exact ⟨hc, (c6_memoized_is_instance_correct _ _ 0 ["A"] hc).1.1⟩

/-- C5 (amended: since `_types` lists the most specific type first and the
tags are applied in reverse list order, the patch of the type listed
EARLIER in `_types` is applied last and wins; with `_types=["Base",
"Derived"]` the `Base` patch is applied after the `Derived` patch, so
`x == 1`): element-level fixups apply the type tags in reverse list order,
the later-applied patch overriding the earlier one, uniformly in the two
patched values. -/
theorem c5_fixup_reverse_order (va vb : Value) :
    fixup_snippet (fun _ => none)
      (fun d =>
        if d = "S/components/Base" then some [(["x"], va)]
        else if d = "S/components/Derived" then some [(["x"], vb)]
        else none)
      ["S"]
      (.map [("_types", .seq [.str "Base", .str "Derived"])]) =
      .ok (.map [("_types", .seq [.str "Base", .str "Derived"]),
        ("x", va)]) := rfl

/-- C5 counterexample to the claim as stated: with `_types=["Base",
"Derived"]`, a `Base` patch setting `x=1` and a `Derived` patch setting
`x=2`, element-level fixups process `reversed(_types) = ["Derived",
"Base"]`, so `Base` is applied last and `x == 1`, not `2`. -/
theorem c5_counterexample :
    ¬ ∃ e, fixup_snippet (fun _ => none)
        (fun d =>
          if d = "S/components/Base" then some [(["x"], Value.int 1)]
          else if d = "S/components/Derived" then some [(["x"], Value.int 2)]
          else none)
        ["S"]
        (.map [("_types", .seq [.str "Base", .str "Derived"])]) = .ok e ∧
      mapLookup (match e with | .map entries => entries | _ => []) "x" =
        some (.int 2) := by
  rintro ⟨e, he, hx⟩
  rw [show fixup_snippet (fun _ => none)
      (fun d =>
        if d = "S/components/Base" then some [(["x"], Value.int 1)]
        else if d = "S/components/Derived" then some [(["x"], Value.int 2)]
        else none)
      ["S"]
      (.map [("_types", .seq [.str "Base", .str "Derived"])]) =
      .ok (.map [("_types", .seq [.str "Base", .str "Derived"]),
        ("x", .int 1)]) from rfl] at he
  injection he with he'
  rw [← he'] at hx
  rw [show mapLookup [("_types", Value.seq [.str "Base", .str "Derived"]),
      ("x", .int 1)] "x" = some (.int 1) from rfl] at hx
  injection hx with hx'
  injection hx' with hx''
  exact absurd hx'' (by decide)

/-- C9 (amended: the Objdict constructor and `update` — hence attribute
assignment — never leave an explicit null in a Map and `update` with a null
value deletes the key; but `set_path`, used by patch application, stores
its value unconditionally, so only those two write paths guarantee the
invariant): constructor output and `update` output contain no null-valued
entry, and updating a key with null removes it. -/
theorem c9_null_deletion :
    (∀ (old kwargs : List (String × Value)),
        ∀ kv ∈ SimpleObjdict.init old kwargs, kv.2.isNull = false) ∧
    (∀ (self joined : List (String × Value)),
        (∀ kv ∈ self, kv.2.isNull = false) →
        ∀ kv ∈ SimpleObjdict.update self joined, kv.2.isNull = false) ∧
    (∀ (self : List (String × Value)) (k : String),
        (self.map Prod.fst).Nodup →
        mapLookup (SimpleObjdict.update self [(k, .null)]) k = none) := by
  refine ⟨?_, ?_, ?_⟩
  · intro old kwargs kv hkv
    exact mem_keepers_not_null _ kv hkv
  · intro self joined
    induction joined generalizing self with
    | nil => intro h kv hkv; exact h kv hkv
    | cons kv0 rest ih =>
        intro h kv hkv
        obtain ⟨k0, v0⟩ := kv0
        rw [SimpleObjdict.update, List.foldl_cons] at hkv
        by_cases hnull : v0.isNull = true
        · rw [if_pos hnull] at hkv
          refine ih (mapDelete self k0) ?_ kv hkv
          intro kv' hkv'
          exact h kv' (mem_mapDelete self k0 kv' hkv')
        · rw [if_neg hnull] at hkv
          refine ih (mapInsert self k0 v0) ?_ kv hkv
          intro kv' hkv'
          rcases mem_mapInsert self k0 v0 kv' hkv' with hm | hm
          · exact h kv' hm
          · rw [hm]
            exact Bool.eq_false_iff.mpr hnull
  · intro self k hnd
    exact mapLookup_mapDelete_self self k hnd

/-- Witness for C9 on the dict `{b: 1}`: updating with `{a: 2}` keeps the
no-null invariant, and updating with `{b: null}` deletes the key. -/
theorem c9_null_deletion_witness :
    (∀ kv ∈ SimpleObjdict.update [("b", Value.int 1)] [("a", .int 2)],
        kv.2.isNull = false) ∧
    mapLookup (SimpleObjdict.update [("b", Value.int 1)] [("b", .null)])
      "b" = none := by
  have h1 : ∀ kv ∈ [("b", Value.int 1)], kv.2.isNull = false := by
    intro kv hkv
    rcases List.mem_singleton.mp hkv with rfl
    rfl
  exact ⟨c9_null_deletion.2.1 _ _ h1,
    c9_null_deletion.2.2 [("b", Value.int 1)] "b" (by decide)⟩

/-- C9 counterexample to the claim as stated: patch application goes
through `set_path`, which stores the value unconditionally, so applying
the patch `{a: null}` to the empty Map leaves an explicit null stored
under the key `a`. -/
theorem c9_counterexample :
    apply_patches (Value.map []) [(["a"], Value.null)] =
      .ok (.map [("a", Value.null)]) ∧
    mapLookup [("a", Value.null)] "a" = some Value.null :=
  ⟨rfl, rfl⟩

/-! ## Lemmas about grouped -/

theorem addToGroup_keys {α : Type} (gs : List (String × List α)) (k : String)
    (x : α) :
    (addToGroup gs k x).map Prod.fst =
      if k ∈ gs.map Prod.fst then gs.map Prod.fst
      else gs.map Prod.fst ++ [k] := by
  induction gs with
  | nil => simp [addToGroup]
  | cons kg rest ih =>
      obtain ⟨k0, g0⟩ := kg
      rw [addToGroup]
      by_cases hk : k0 = k
      · subst hk
        simp
      · rw [if_neg hk]
        simp only [List.map_cons, ih]
        by_cases hmem : k ∈ rest.map Prod.fst
        · rw [if_pos hmem, if_pos (by simp [List.mem_cons, hmem])]
        · rw [if_neg hmem,
            if_neg (by simp only [List.mem_cons, not_or]
                       exact ⟨fun hh => hk hh.symm, hmem⟩),
            List.cons_append]

theorem addToGroup_keys_nodup {α : Type} (gs : List (String × List α))
    (k : String) (x : α) (hnd : (gs.map Prod.fst).Nodup) :
    ((addToGroup gs k x).map Prod.fst).Nodup := by
  rw [addToGroup_keys]
  split
  · exact hnd
  next h =>
    refine List.nodup_append.mpr ⟨hnd, by simp, ?_⟩
    intro a ha hb
    rw [List.mem_singleton.mp hb] at ha
    exact h ha

theorem addToGroup_not_mem {α : Type} (gs : List (String × List α))
    (k : String) (x : α) (h : k ∉ gs.map Prod.fst) :
    addToGroup gs k x = gs ++ [(k, [x])] := by
  induction gs with
  | nil => rfl
  | cons kg rest ih =>
      obtain ⟨k0, g0⟩ := kg
      simp only [List.map_cons, List.mem_cons, not_or] at h
      rw [addToGroup, if_neg (fun hh => h.1 hh.symm), List.cons_append,
        ih h.2]

theorem addToGroup_mem {α : Type} (gs : List (String × List α)) (k : String)
    (x : α) (hnd : (gs.map Prod.fst).Nodup) (h : k ∈ gs.map Prod.fst) :
    addToGroup gs k x =
      gs.map (fun kg => if kg.1 = k then (kg.1, kg.2 ++ [x]) else kg) := by
  induction gs with
  | nil => cases h
  | cons kg0 rest ih =>
      obtain ⟨k0, g0⟩ := kg0
      simp only [List.map_cons, List.nodup_cons] at hnd
      rw [addToGroup, List.map_cons]
      by_cases hk : k0 = k
      · rw [if_pos hk]
        show _ = (if (k0, g0).1 = k then ((k0, g0).1, (k0, g0).2 ++ [x])
          else (k0, g0)) :: _
        rw [if_pos hk]
        congr 1
        have hpt : ∀ kg ∈ rest,
            (if Prod.fst kg = k then (kg.1, kg.2 ++ [x]) else kg) = kg := by
          intro kg hkg
          rw [if_neg]
          intro hkk
          exact hnd.1 (hk ▸ hkk ▸ List.mem_map_of_mem Prod.fst hkg)
        exact ((List.map_congr_left hpt).trans (List.map_id rest)).symm
      · rw [if_neg hk]
        show _ = (if (k0, g0).1 = k then ((k0, g0).1, (k0, g0).2 ++ [x])
          else (k0, g0)) :: _
        rw [if_neg hk]
        have hmem : k ∈ rest.map Prod.fst := by
          rcases List.mem_cons.mp h with h1 | h2
          · exact absurd h1.symm hk
          · exact h2
        rw [ih hnd.2 hmem]

theorem dedupAcc_congr (s1 s2 l : List String)
    (h : ∀ a, a ∈ s1 ↔ a ∈ s2) : dedupAcc s1 l = dedupAcc s2 l := by
  induction l generalizing s1 s2 with
  | nil => rfl
  | cons k rest ih =>
      rw [dedupAcc, dedupAcc]
      by_cases hk : k ∈ s1
      · rw [if_pos hk, if_pos ((h k).mp hk)]
        exact ih s1 s2 h
      · rw [if_neg hk, if_neg (fun hh => hk ((h k).mpr hh))]
        congr 1
        exact ih (k :: s1) (k :: s2) (by intro a; simp [List.mem_cons, h a])

theorem mem_dedupAcc_not_seen (l : List String) :
    ∀ (seen : List String) (a : String),
      a ∈ dedupAcc seen l → a ∉ seen := by
  induction l with
  | nil =>
      intro seen a h
      cases h
  | cons k rest ih =>
      intro seen a h
      rw [dedupAcc] at h
      split at h
      · exact ih seen a h
      next hk =>
        rcases List.mem_cons.mp h with h1 | h2
        · exact h1 ▸ hk
        · intro ha
          exact ih (k :: seen) a h2 (List.mem_cons_of_mem _ ha)

/-- Characterization of the `grouped` loop: starting from a table `gs` with
distinct keys, the final table extends every existing group with the
matching items of `seq` (in input order) and appends one new group per
first occurrence of a new key (in first-occurrence order). -/
theorem grouped_foldl_spec {α : Type} (key : α → Value) :
    ∀ (seq : List α) (gs : List (String × List α)),
      (gs.map Prod.fst).Nodup →
      seq.foldl (fun gs item => addToGroup gs (pyStr (key item)) item) gs =
        gs.map (fun kg =>
          (kg.1, kg.2 ++ seq.filter (fun x => pyStr (key x) == kg.1))) ++
        (dedupAcc (gs.map Prod.fst)
            (seq.map (fun x => pyStr (key x)))).map
          (fun k => (k, seq.filter (fun x => pyStr (key x) == k))) := by
  intro seq
  induction seq with
  | nil =>
      intro gs hnd
      simp [dedupAcc]
  | cons x rest ih =>
      intro gs hnd
      rw [List.foldl_cons, List.map_cons, dedupAcc]
      by_cases hmem : pyStr (key x) ∈ gs.map Prod.fst
      · rw [ih (addToGroup gs (pyStr (key x)) x)
            (addToGroup_keys_nodup _ _ _ hnd),
          addToGroup_keys, if_pos hmem,
          addToGroup_mem gs _ x hnd hmem, if_pos hmem]
        congr 1
        · rw [List.map_map]
          apply List.map_congr_left
          intro kg hkg
          simp only [Function.comp_apply]
          by_cases hk : kg.1 = pyStr (key x)
          · rw [if_pos hk, List.filter_cons,
              if_pos (beq_iff_eq.mpr hk.symm), List.append_assoc,
              List.singleton_append]
          · rw [if_neg hk, List.filter_cons,
              if_neg (fun hb => hk (beq_iff_eq.mp hb).symm)]
        · apply List.map_congr_left
          intro k' hk'
          have hne : pyStr (key x) ≠ k' :=
            fun hh => (mem_dedupAcc_not_seen _ _ _ hk') (hh ▸ hmem)
          rw [List.filter_cons, if_neg (fun hb => hne (beq_iff_eq.mp hb))]
      · rw [ih (addToGroup gs (pyStr (key x)) x)
            (addToGroup_keys_nodup _ _ _ hnd),
          addToGroup_keys, if_neg hmem,
          addToGroup_not_mem gs _ x hmem, if_neg hmem,
          dedupAcc_congr (gs.map Prod.fst ++ [pyStr (key x)])
            (pyStr (key x) :: gs.map Prod.fst) _
            (by intro a; simp [List.mem_append, List.mem_cons, or_comm]),
          List.map_append, List.map_cons, List.map_cons, List.map_nil,
          List.append_assoc, List.cons_append, List.nil_append]
        congr 1
        · apply List.map_congr_left
          intro kg hkg
          have hne : pyStr (key x) ≠ kg.1 := fun hh =>
            hmem (by rw [hh]; exact List.mem_map_of_mem Prod.fst hkg)
          rw [List.filter_cons, if_neg (fun hb => hne (beq_iff_eq.mp hb))]
        · congr 1
          · rw [List.filter_cons, if_pos (beq_iff_eq.mpr rfl),
              List.singleton_append]
          · apply List.map_congr_left
            intro k' hk'
            have hnin := mem_dedupAcc_not_seen _ _ _ hk'
            have hne : pyStr (key x) ≠ k' := fun hh =>
              hnin (by rw [← hh]; exact List.mem_cons_self _ _)
            rw [List.filter_cons,
              if_neg (fun hb => hne (beq_iff_eq.mp hb))]

theorem groupedByAux_ok (path : List String) (f : Value → Value) :
    ∀ (seq : List Value) (gs : List (String × List Value)),
      (∀ x ∈ seq, get_path x path = .ok (f x)) →
      groupedByAux path seq gs =
        .ok (seq.foldl
          (fun gs item => addToGroup gs (pyStr (f item)) item) gs) := by
  intro seq
  induction seq with
  | nil =>
      intro gs h
      rfl
  | cons x rest ih =>
      intro gs h
      rw [groupedByAux, h x (List.mem_cons_self _ _), List.foldl_cons]
      exact ih _ (fun y hy => h y (List.mem_cons_of_mem _ hy))

/-- C10: `grouped` partitions by the string form of the derived key —
groups appear in first-occurrence order of their key string and each group
is the input-order sublist of the items with that key string, so values
that differ but print alike (the number `1` and the string `"1"`) share a
group; `grouped_by` is `grouped` with the key drawn by `get_path`. -/
theorem c10_grouped_by_string_key :
    (∀ (α : Type) (seq : List α) (key : α → Value),
        grouped seq key =
          (dedupAcc [] (seq.map (fun x => pyStr (key x)))).map
            (fun k => seq.filter (fun x => pyStr (key x) == k))) ∧
    grouped [Value.int 1, Value.str "1"] (fun v => v) =
      [[Value.int 1, Value.str "1"]] ∧
    (∀ (seq : List Value) (path : List String) (f : Value → Value),
        (∀ x ∈ seq, get_path x path = .ok (f x)) →
        grouped_by seq path = .ok (grouped seq f)) := by
  refine ⟨?_, rfl, ?_⟩
  · intro α seq key
    rw [grouped, grouped_foldl_spec key seq [] (by simp)]
    simp [List.map_map, Function.comp]
  · intro seq path f h
    rw [grouped_by, groupedByAux_ok path f seq [] h]
    rfl

/-- Witness for C10: a singleton sequence whose `get_path` derivation is
checked concretely. -/
theorem c10_grouped_by_string_key_witness :
    (∀ x ∈ [Value.map [("k", Value.int 1)]],
        get_path x ["k"] = .ok ((fun _ => Value.int 1) x)) ∧
    grouped_by [Value.map [("k", Value.int 1)]] ["k"] =
      .ok (grouped [Value.map [("k", Value.int 1)]]
        (fun _ => Value.int 1)) := by
  have h : ∀ x ∈ [Value.map [("k", Value.int 1)]],
      get_path x ["k"] = .ok ((fun _ => Value.int 1) x) := by
    intro x hx
    rcases List.mem_singleton.mp hx with rfl
    rfl
  exact ⟨h,
    c10_grouped_by_string_key.2.2 _ ["k"] (fun _ => Value.int 1) h⟩

end Scribble
